import Mathlib

/-!
Verification of the luminos-jp text-analysis pipeline.

The development shallowly embeds the application's analysis code:
the frequency ranker from `src/app/page.tsx` (`isKanji`, the word-count
map, the sort/slice producing `topWords`), the dictionary normalization
from the `/api/dictionary` route handler, the orchestrator loop that
collects up to 20 annotated words, the surrounding UI state transitions
of `analyzeText`, and the CSV export.  JavaScript strings are modelled
as Lean `String`s; JavaScript `Map` insertion-order semantics are made
explicit as association lists; the stable `Array.prototype.sort` is
modelled as a stable insertion sort.  External collaborators (fetch,
tokenizer, romanizer, the Jisho API) are parameters.
-/

namespace Luminos

/-- `isKanji` from `page.tsx`: true when the string contains at least one
character in the CJK Unified Ideographs range U+4E00 to U+9FAF. -/
def isKanji (w : String) : Bool :=
  w.data.any (fun c => 0x4E00 ≤ c.toNat && c.toNat ≤ 0x9FAF)

/-- The token filter of `analyzeText`: `word.length > 1 && isKanji(word)`. -/
def qualifies (w : String) : Bool :=
  decide (1 < w.length) && isKanji w

/-- One `wordCount.set(word, (wordCount.get(word) || 0) + 1)` step.
JavaScript `Map.set` updates an existing key in place (keeping its
position) and appends a missing key at the end. -/
def bump : List (String × Nat) → String → List (String × Nat)
  | [], w => [(w, 1)]
  | p :: ps, w => if p.1 = w then (p.1, p.2 + 1) :: ps else p :: bump ps w

/-- The word-count map built by `analyzeText` over the token stream,
as an insertion-ordered association list. -/
def wordCount (ts : List String) : List (String × Nat) :=
  ts.foldl (fun acc t => if qualifies t then bump acc t else acc) []

/-- `Map.get`: the count stored for a word, `none` when absent. -/
def lookupCount : List (String × Nat) → String → Option Nat
  | [], _ => none
  | p :: ps, w => if p.1 = w then some p.2 else lookupCount ps w

/-- Insertion step of a stable descending-by-count sort: the new pair is
placed before the first entry whose count is at most its own, so earlier
entries win ties. -/
def insertDesc (p : String × Nat) : List (String × Nat) → List (String × Nat)
  | [] => [p]
  | q :: qs => if q.2 ≤ p.2 then p :: q :: qs else q :: insertDesc p qs

/-- Stable descending sort by count, modelling
`Array.from(wordCount.entries()).sort(([, a], [, b]) => b - a)`
(JavaScript `sort` is stable, so this insertion sort computes the same
ordering). -/
def sortDesc : List (String × Nat) → List (String × Nat)
  | [] => []
  | p :: ps => insertDesc p (sortDesc ps)

/-- `topWords` from `analyzeText`: sorted entries, sliced to 50. -/
def topWords (ts : List String) : List (String × Nat) :=
  (sortDesc (wordCount ts)).take 50

lemma lookupCount_bump_self (l : List (String × Nat)) (w : String) :
    lookupCount (bump l w) w = some ((lookupCount l w).getD 0 + 1) := by
  induction l with
  | nil => simp [bump, lookupCount]
  | cons p ps ih =>
    by_cases h : p.1 = w
    · simp [bump, lookupCount, h]
    · simp [bump, lookupCount, h, ih]

lemma lookupCount_bump_ne (l : List (String × Nat)) (u w : String) (h : u ≠ w) :
    lookupCount (bump l u) w = lookupCount l w := by
  induction l with
  | nil => simp [bump, lookupCount, h]
  | cons p ps ih =>
    by_cases hp : p.1 = u
    · have hpw : ¬ p.1 = w := by rw [hp]; exact h
      simp [bump, lookupCount, hp, hpw, h]
    · by_cases hw : p.1 = w
      · simp [bump, lookupCount, hp, hw, Ne.symm h]
      · simp [bump, lookupCount, hp, hw, ih]

/-- Adding `k` further occurrences to an optional stored count. -/
def addCount (o : Option Nat) (k : Nat) : Option Nat :=
  match o with
  | some n => some (n + k)
  | none => if 0 < k then some k else none

lemma addCount_zero (o : Option Nat) : addCount o 0 = o := by
  cases o <;> simp [addCount]

lemma addCount_shift (o : Option Nat) (k : Nat) :
    addCount (some (o.getD 0 + 1)) k = addCount o (k + 1) := by
  cases o with
  | none =>
    simp only [addCount, Option.getD_none, Nat.zero_add]
    rw [if_pos (Nat.succ_pos k)]
    exact congrArg some (by omega)
  | some n =>
    simp only [addCount, Option.getD_some]
    exact congrArg some (by omega)

lemma lookupCount_wordCount_fold (ts : List String) :
    ∀ (acc : List (String × Nat)) (w : String),
      lookupCount (ts.foldl (fun acc t => if qualifies t then bump acc t else acc) acc) w =
        if qualifies w then addCount (lookupCount acc w) (ts.count w)
        else lookupCount acc w := by
  induction ts with
  | nil =>
    intro acc w
    rw [List.foldl_nil, List.count_nil]
    by_cases h : qualifies w
    · rw [if_pos h, addCount_zero]
    · rw [if_neg h]
  | cons t ts ih =>
    intro acc w
    rw [List.foldl_cons, ih]
    by_cases htw : t = w
    · subst htw
      by_cases hq : qualifies t
      · simp only [if_pos hq]
        rw [List.count_cons_self, lookupCount_bump_self, addCount_shift]
      · simp only [if_neg hq]
    · have hcount : (t :: ts).count w = ts.count w := by
        simp [List.count_cons, htw]
      have hstep : lookupCount (if qualifies t then bump acc t else acc) w =
          lookupCount acc w := by
        by_cases hqt : qualifies t
        · rw [if_pos hqt]; exact lookupCount_bump_ne _ _ _ htw
        · rw [if_neg hqt]
      rw [hstep, hcount]

lemma qualifies_iff (w : String) :
    qualifies w = true ↔ 1 < w.length ∧ isKanji w = true := by
  simp [qualifies]

/-- C1: the ranker's count map contains a surface form iff it occurs in
the token sequence, has length greater than 1, and contains at least one
character in U+4E00..U+9FAF; the stored count is its exact number of
occurrences in the token sequence. -/
theorem ranker_count_map (ts : List String) (w : String) :
    lookupCount (wordCount ts) w =
      if 1 < w.length ∧ isKanji w = true ∧ w ∈ ts then some (ts.count w) else none := by
  have h := lookupCount_wordCount_fold ts [] w
  simp only [lookupCount] at h
  unfold wordCount
  rw [h]
  by_cases hq : qualifies w
  · rcases (qualifies_iff w).mp hq with ⟨h1, h2⟩
    by_cases hmem : w ∈ ts
    · have hpos : 0 < ts.count w := List.count_pos_iff.mpr hmem
      simp [hq, h1, h2, hmem, hpos, addCount]
    · have hz : ¬ 0 < ts.count w := by
        simp [List.count_eq_zero.mpr hmem]
      simp [hq, hmem, hz, addCount]
  · have hns : ¬ (1 < w.length ∧ isKanji w = true ∧ w ∈ ts) := by
      intro ⟨h1, h2, _⟩
      exact hq ((qualifies_iff w).mpr ⟨h1, h2⟩)
    simp [hq, hns]

lemma mem_insertDesc {x p : String × Nat} {l : List (String × Nat)} :
    x ∈ insertDesc p l ↔ x = p ∨ x ∈ l := by
  induction l with
  | nil => simp [insertDesc]
  | cons q qs ih =>
    by_cases h : q.2 ≤ p.2
    · simp [insertDesc, h]
    · simp [insertDesc, h, ih]
      tauto

lemma insertDesc_pairwise (p : String × Nat) (l : List (String × Nat))
    (h : l.Pairwise (fun a b => b.2 ≤ a.2)) :
    (insertDesc p l).Pairwise (fun a b => b.2 ≤ a.2) := by
  induction l with
  | nil => simp [insertDesc]
  | cons q qs ih =>
    rw [List.pairwise_cons] at h
    obtain ⟨hq, hqs⟩ := h
    by_cases hc : q.2 ≤ p.2
    · rw [insertDesc, if_pos hc, List.pairwise_cons]
      refine ⟨?_, List.pairwise_cons.mpr ⟨hq, hqs⟩⟩
      intro x hx
      rcases List.mem_cons.mp hx with rfl | hx
      · exact hc
      · exact le_trans (hq x hx) hc
    · rw [insertDesc, if_neg hc, List.pairwise_cons]
      refine ⟨?_, ih hqs⟩
      intro x hx
      rcases mem_insertDesc.mp hx with rfl | hx
      · exact le_of_lt (lt_of_not_le hc)
      · exact hq x hx

lemma sortDesc_pairwise (l : List (String × Nat)) :
    (sortDesc l).Pairwise (fun a b => b.2 ≤ a.2) := by
  induction l with
  | nil => simp [sortDesc]
  | cons p ps ih => exact insertDesc_pairwise p _ ih

lemma insertDesc_filter (p : String × Nat) (l : List (String × Nat)) (c : Nat) :
    (insertDesc p l).filter (fun q => q.2 == c) =
      if p.2 = c then p :: l.filter (fun q => q.2 == c)
      else l.filter (fun q => q.2 == c) := by
  induction l with
  | nil =>
    by_cases h : p.2 = c <;> simp [insertDesc, List.filter_cons, h]
  | cons q qs ih =>
    by_cases hc : q.2 ≤ p.2
    · rw [insertDesc, if_pos hc]
      by_cases h : p.2 = c <;> simp [List.filter_cons, h]
    · rw [insertDesc, if_neg hc]
      by_cases h : p.2 = c
      · have hqc : ¬ q.2 = c := by
          intro hq
          exact hc (by omega)
        simp [List.filter_cons, hqc, ih, h]
      · by_cases hqc : q.2 = c <;> simp [List.filter_cons, hqc, ih, h]

lemma sortDesc_filter (l : List (String × Nat)) (c : Nat) :
    (sortDesc l).filter (fun q => q.2 == c) = l.filter (fun q => q.2 == c) := by
  induction l with
  | nil => rfl
  | cons p ps ih =>
    rw [sortDesc, insertDesc_filter]
    by_cases h : p.2 = c <;> simp [List.filter_cons, h, ih]

/-- C2 counterexample: on the spec's example token list the ranker does
NOT produce `[("日本語",2),("天気",2),("猫",1)]` — "猫" has length 1 and is
filtered out just like "は". -/
theorem ranker_example_cex :
    ¬ (topWords ["日本語", "日本語", "天気", "は", "天気", "猫"] =
        [("日本語", 2), ("天気", 2), ("猫", 1)]) := by decide

/-- C2 (amended): the ranker output is sorted by count descending,
equal-count entries keep first-seen (map-insertion) order — the filter
at any fixed count is an order-preserving sublist of the count map — and
at most 50 candidates are emitted; on the example token list the output
is `[("日本語",2),("天気",2)]` (both "は" and "猫" are excluded, length 1). -/
theorem ranker_order_spec (ts : List String) (c : Nat) :
    (topWords ts).Pairwise (fun a b => b.2 ≤ a.2) ∧
    (topWords ts).length ≤ 50 ∧
    ((topWords ts).filter (fun q => q.2 == c)).Sublist
      ((wordCount ts).filter (fun q => q.2 == c)) ∧
    topWords ["日本語", "日本語", "天気", "は", "天気", "猫"] =
      [("日本語", 2), ("天気", 2)] := by
  refine ⟨?_, ?_, ?_, by decide⟩
  · exact (sortDesc_pairwise (wordCount ts)).sublist (List.take_sublist _ _)
  · exact List.length_take_le _ _
  · have h := (List.take_sublist 50 (sortDesc (wordCount ts))).filter
      (fun q => q.2 == c)
    rwa [sortDesc_filter] at h

/-! ## Dictionary Lookup (`/api/dictionary` route handler) -/

/-- One element of the Jisho response's `senses` array. -/
structure Sense where
  english_definitions : List String
  parts_of_speech : List String
deriving DecidableEq, Repr

/-- The first Jisho search result; each element of `japanese` carries an
optional `reading` field. -/
structure JishoEntry where
  japanese : List (Option String)
  senses : List Sense
deriving DecidableEq, Repr

/-- The JSON body returned by the route handler.  `none` fields model
JSON keys that are absent from the response object; `status` is the
HTTP status of the response. -/
structure DictResponse where
  definition : String
  reading : Option String
  extraReadings : Option Nat
  partOfSpeech : Option String
  status : Nat
deriving DecidableEq, Repr

/-- Whether `needle` occurs at the head of `hay`. -/
def startsWith : List Char → List Char → Bool
  | [], _ => true
  | _ :: _, [] => false
  | a :: as, b :: bs => a == b && startsWith as bs

/-- Whether `needle` occurs anywhere in `hay`. -/
def containsSub (needle : List Char) : List Char → Bool
  | [] => startsWith needle []
  | c :: rest => startsWith needle (c :: rest) || containsSub needle rest

/-- `tag.includes(sub)` from the route handler. -/
def mentions (tag sub : String) : Bool :=
  containsSub sub.data tag.data

/-- `s.split(' ')[0]`: the first space-delimited token (`""` stays `""`,
as in JavaScript where `"".split(' ')` is `[""]`). -/
def firstToken (s : String) : String :=
  ⟨(s.data.splitOn ' ').headD []⟩

/-- `s.toLowerCase()`; `Char.toLower` matches it on the ASCII tags the
handler inspects. -/
def jsToLower (s : String) : String :=
  ⟨s.data.map Char.toLower⟩

/-- `array.join(sep)` of JavaScript. -/
def jsJoin (sep : String) : List String → String
  | [] => ""
  | [x] => x
  | x :: xs => x ++ sep ++ jsJoin sep xs

/-- `senses[0]?.parts_of_speech`, `[]` when there is no sense. -/
def firstTags (e : JishoEntry) : List String :=
  match e.senses.head? with
  | some s => s.parts_of_speech
  | none => []

/-- `(senses[0]?.parts_of_speech[0] || 'noun').split(' ')[0].toLowerCase()`:
the normalized first part-of-speech token. -/
def firstPOS (e : JishoEntry) : String :=
  let raw := (firstTags e).headD ""
  let raw := if raw = "" then "noun" else raw
  jsToLower (firstToken raw)

/-- The verb-refinement step of the handler: when the normalized token
is `"verb"`, `find` returns the first tag containing `"ichidan"` or
`"godan"`, and that single tag decides the label. -/
def verbAdjust (e : JishoEntry) (pos : String) : String :=
  if pos = "verb" then
    match (firstTags e).find? (fun t => mentions t "ichidan" || mentions t "godan") with
    | some t => if mentions t "ichidan" then "ichidan verb" else "godan verb"
    | none => pos
  else pos

/-- `japanese.map(j => j.reading).filter(Boolean)`: the readings listed
for the entry, in source order, with absent and empty readings dropped. -/
def readings (e : JishoEntry) : List String :=
  (e.japanese.filterMap id).filter (fun r => !(r == ""))

/-- `senses[0]?.english_definitions.join('; ')`, `""` when there is no
sense (JavaScript optional chaining yields `undefined`, which the
handler's `||` then replaces). -/
def joinedGlosses (e : JishoEntry) : String :=
  match e.senses.head? with
  | some s => jsJoin "; " s.english_definitions
  | none => ""

/-- The route handler's successful path applied to the first search
result; `none` models an empty `data` array (no entry matched). -/
def lookupWord (firstResult : Option JishoEntry) : DictResponse :=
  match firstResult with
  | none =>
      { definition := "No definition found", reading := none,
        extraReadings := none, partOfSpeech := none, status := 200 }
  | some e =>
      let rs := readings e
      let extra := if 1 < rs.length then rs.length - 1 else 0
      let pos := verbAdjust e (firstPOS e)
      let defn := if joinedGlosses e = "" then "No definition found" else joinedGlosses e
      { definition := defn, reading := rs.head?,
        extraReadings := some extra, partOfSpeech := some pos, status := 200 }

/-- The handler's catch branch: a fixed sentinel body with HTTP 500. -/
def errorResponse : DictResponse :=
  { definition := "Error fetching definition", reading := some "",
    extraReadings := some 0, partOfSpeech := some "noun", status := 500 }

/-- C10: the two sentinels have different shapes — the no-match response
carries only the definition field (no reading, extraReadings or
partOfSpeech) with status 200, while the error sentinel always carries
reading "", extraReadings 0, partOfSpeech "noun" and status 500. -/
theorem sentinel_shapes :
    (lookupWord none).definition = "No definition found" ∧
    (lookupWord none).reading = none ∧
    (lookupWord none).extraReadings = none ∧
    (lookupWord none).partOfSpeech = none ∧
    (lookupWord none).status = 200 ∧
    errorResponse.definition = "Error fetching definition" ∧
    errorResponse.reading = some "" ∧
    errorResponse.extraReadings = some 0 ∧
    errorResponse.partOfSpeech = some "noun" ∧
    errorResponse.status = 500 :=
  ⟨rfl, rfl, rfl, rfl, rfl, rfl, rfl, rfl, rfl, rfl⟩

/-- C5 counterexample: on a found entry whose first sense has no
glosses, the returned definition is the sentinel "No definition found",
not the empty string claimed by the spec. -/
theorem empty_gloss_cex :
    (lookupWord (some ⟨[], [⟨[], []⟩]⟩)).definition = "No definition found" ∧
    ¬ (lookupWord (some ⟨[], [⟨[], []⟩]⟩)).definition = "" := by
  decide

/-- C5 (amended): for every found entry, the returned definition is the
English glosses of the first sense joined with "; " whenever that join
is nonempty; when the join is empty (in particular when the first sense
has no glosses) the definition is "No definition found" rather than the
empty string. -/
theorem definition_join_spec (e : JishoEntry) (s : Sense)
    (h : e.senses.head? = some s) :
    (jsJoin "; " s.english_definitions ≠ "" →
      (lookupWord (some e)).definition = jsJoin "; " s.english_definitions) ∧
    (jsJoin "; " s.english_definitions = "" →
      (lookupWord (some e)).definition = "No definition found") := by
  have hj : joinedGlosses e = jsJoin "; " s.english_definitions := by
    rw [joinedGlosses, h]
  constructor
  · intro hne
    simp [lookupWord, hj, hne]
  · intro he
    simp [lookupWord, hj, he]

/-- Witness for `definition_join_spec` at a concrete entry. -/
theorem definition_join_spec_witness :
    (⟨[], [⟨["cat", "kitty"], ["Noun"]⟩]⟩ : JishoEntry).senses.head? =
      some ⟨["cat", "kitty"], ["Noun"]⟩ ∧
    (lookupWord (some ⟨[], [⟨["cat", "kitty"], ["Noun"]⟩]⟩)).definition =
      "cat; kitty" := by
  constructor
  · rfl
  · have h := (definition_join_spec ⟨[], [⟨["cat", "kitty"], ["Noun"]⟩]⟩
      ⟨["cat", "kitty"], ["Noun"]⟩ rfl).1 (by decide)
    rw [h]
    decide

lemma find?_append_first {α : Type} (p : α → Bool) (l₁ l₂ : List α) (t : α)
    (h₁ : ∀ u ∈ l₁, p u = false) (ht : p t = true) :
    (l₁ ++ t :: l₂).find? p = some t := by
  induction l₁ with
  | nil => simp [List.find?_cons, ht]
  | cons a l ih =>
    have ha : p a = false := h₁ a (List.mem_cons_self a l)
    simp only [List.cons_append, List.find?_cons, ha]
    exact ih (fun u hu => h₁ u (List.mem_cons_of_mem a hu))

/-- C4 counterexample: a verb entry whose first sense's tags mention
"godan" in an earlier tag and "ichidan" only in a later tag is labelled
"godan verb" — ichidan does not take priority across tags. -/
theorem verb_label_cex :
    firstPOS ⟨[], [⟨["x"], ["verb", "godan a", "ichidan b"]⟩]⟩ = "verb" ∧
    (["verb", "godan a", "ichidan b"].any (fun t => mentions t "ichidan")) = true ∧
    (lookupWord (some ⟨[], [⟨["x"], ["verb", "godan a", "ichidan b"]⟩]⟩)).partOfSpeech =
      some "godan verb" := by
  decide

/-- C4 (amended): for an entry whose normalized first part-of-speech
token is "verb", the first tag of the first sense that mentions
"ichidan" or "godan" decides the label — "ichidan verb" when that tag
mentions "ichidan", otherwise "godan verb" — and when no tag mentions
either, the label stays "verb".  Ichidan priority holds only within the
single deciding tag, not across the tag list. -/
theorem verb_label_spec (e : JishoEntry) (l₁ l₂ : List String) (t : String)
    (h : firstPOS e = "verb") :
    ((∀ u ∈ firstTags e, mentions u "ichidan" = false ∧ mentions u "godan" = false) →
      (lookupWord (some e)).partOfSpeech = some "verb") ∧
    (firstTags e = l₁ ++ t :: l₂ →
      (∀ u ∈ l₁, mentions u "ichidan" = false ∧ mentions u "godan" = false) →
      (mentions t "ichidan" = true ∨ mentions t "godan" = true) →
      (lookupWord (some e)).partOfSpeech =
        some (if mentions t "ichidan" then "ichidan verb" else "godan verb")) := by
  have hpos : (lookupWord (some e)).partOfSpeech = some (verbAdjust e (firstPOS e)) := rfl
  constructor
  · intro hall
    have hfind : (firstTags e).find?
        (fun u => mentions u "ichidan" || mentions u "godan") = none := by
      rw [List.find?_eq_none]
      intro u hu
      rcases hall u hu with ⟨h1, h2⟩
      simp [h1, h2]
    rw [hpos, verbAdjust, if_pos h, hfind, h]
  · intro hdec hl₁ ht
    have hfind : (firstTags e).find?
        (fun u => mentions u "ichidan" || mentions u "godan") = some t := by
      rw [hdec]
      refine find?_append_first _ l₁ l₂ t ?_ ?_
      · intro u hu
        rcases hl₁ u hu with ⟨h1, h2⟩
        simp [h1, h2]
      · rcases ht with h1 | h2
        · simp [h1]
        · simp [h2]
    rw [hpos, verbAdjust, if_pos h, hfind]

/-- Witness for `verb_label_spec` at a concrete entry with a godan-first
tag list. -/
theorem verb_label_spec_witness :
    firstPOS ⟨[], [⟨[], ["verb", "godan x", "ichidan y"]⟩]⟩ = "verb" ∧
    (lookupWord (some ⟨[], [⟨[], ["verb", "godan x", "ichidan y"]⟩]⟩)).partOfSpeech =
      some "godan verb" := by
  constructor
  · decide
  · have h := (verb_label_spec ⟨[], [⟨[], ["verb", "godan x", "ichidan y"]⟩]⟩
      ["verb"] ["ichidan y"] "godan x" (by decide)).2 (by decide)
      (by decide) (Or.inr (by decide))
    have hif : (if mentions "godan x" "ichidan" then "ichidan verb" else "godan verb") =
        "godan verb" := by decide
    rw [hif] at h
    exact h

/-! ## Orchestrator lookup loop (`analyzeText` in `page.tsx`) -/

/-- One entry of the rendered result list (`WordResult` in `page.tsx`). -/
structure WordResult where
  word : String
  count : Nat
  reading : String
  extraReadings : Nat
  definition : String
  partOfSpeech : String
deriving DecidableEq, Repr

/-- Building a kept result from a candidate and a dictionary response:
`reading: data.reading || wanakana.toRomaji(word)`,
`extraReadings: data.extraReadings || 0`,
`partOfSpeech: data.partOfSpeech || 'noun'` (JavaScript `||` also
replaces the falsy empty string). -/
def mkResult (romaji : String → String) (w : String) (c : Nat)
    (d : DictResponse) : WordResult :=
  { word := w, count := c,
    reading := match d.reading with
      | some r => if r = "" then romaji w else r
      | none => romaji w,
    extraReadings := d.extraReadings.getD 0,
    definition := d.definition,
    partOfSpeech := match d.partOfSpeech with
      | some p => if p = "" then "noun" else p
      | none => "noun" }

/-- The keep test of the loop: the definition is neither sentinel. -/
def keepable (d : DictResponse) : Bool :=
  !(d.definition == "Error fetching definition") &&
    !(d.definition == "No definition found")

/-- The candidate-processing loop of `analyzeText`.  `lookup` models one
`/api/dictionary` round trip for a word: `none` is a thrown error
(caught by the loop's `catch`, which `continue`s), `some d` a parsed
response body.  After each non-throwing iteration the loop breaks once
exactly 20 results have been kept. -/
def collect (lookup : String → Option DictResponse) (romaji : String → String) :
    List (String × Nat) → List WordResult → List WordResult
  | [], acc => acc
  | (w, c) :: rest, acc =>
    match lookup w with
    | none => collect lookup romaji rest acc
    | some d =>
      let acc' := if keepable d then acc ++ [mkResult romaji w c d] else acc
      if acc'.length = 20 then acc' else collect lookup romaji rest acc'

lemma collect_length_le (lookup : String → Option DictResponse)
    (romaji : String → String) :
    ∀ (cs : List (String × Nat)) (acc : List WordResult),
      acc.length < 20 → (collect lookup romaji cs acc).length ≤ 20 := by
  intro cs
  induction cs with
  | nil =>
    intro acc h
    simpa [collect] using le_of_lt h
  | cons p rest ih =>
    intro acc h
    obtain ⟨w, c⟩ := p
    cases hl : lookup w with
    | none =>
      simp only [collect, hl]
      exact ih acc h
    | some d =>
      simp only [collect, hl]
      by_cases hk : keepable d
      · simp only [if_pos hk]
        by_cases h20 : (acc ++ [mkResult romaji w c d]).length = 20
        · simp [if_pos h20, h20]
        · rw [if_neg h20]
          refine ih _ ?_
          have : (acc ++ [mkResult romaji w c d]).length = acc.length + 1 := by simp
          omega
      · simp only [if_neg hk]
        by_cases h20 : acc.length = 20
        · omega
        · rw [if_neg h20]
          exact ih acc h

lemma collect_stop (lookup : String → Option DictResponse)
    (romaji : String → String) :
    ∀ (cs₁ cs₂ : List (String × Nat)) (acc : List WordResult),
      acc.length < 20 →
      (collect lookup romaji cs₁ acc).length = 20 →
      collect lookup romaji (cs₁ ++ cs₂) acc = collect lookup romaji cs₁ acc := by
  intro cs₁
  induction cs₁ with
  | nil =>
    intro cs₂ acc hacc h20
    simp only [collect] at h20
    omega
  | cons p rest ih =>
    intro cs₂ acc hacc h20
    obtain ⟨w, c⟩ := p
    cases hl : lookup w with
    | none =>
      simp only [collect, hl] at h20 ⊢
      exact ih cs₂ acc hacc h20
    | some d =>
      simp only [collect, hl] at h20 ⊢
      by_cases hk : keepable d
      · simp only [if_pos hk] at h20 ⊢
        by_cases h20' : (acc ++ [mkResult romaji w c d]).length = 20
        · simp only [if_pos h20']
        · simp only [if_neg h20'] at h20 ⊢
          refine ih cs₂ _ ?_ h20
          have : (acc ++ [mkResult romaji w c d]).length = acc.length + 1 := by simp
          omega
      · simp only [if_neg hk] at h20 ⊢
        have h20'' : ¬ acc.length = 20 := by omega
        simp only [if_neg h20''] at h20 ⊢
        exact ih cs₂ acc hacc h20

/-- C6: the lookup loop never keeps more than 20 results, and once 20
results have been kept the remaining candidates are never processed:
appending further candidates to the pool does not change the output. -/
theorem orchestrator_quota (lookup : String → Option DictResponse)
    (romaji : String → String) (cs₁ cs₂ : List (String × Nat)) :
    (collect lookup romaji cs₁ []).length ≤ 20 ∧
    ((collect lookup romaji cs₁ []).length = 20 →
      collect lookup romaji (cs₁ ++ cs₂) [] = collect lookup romaji cs₁ []) := by
  constructor
  · exact collect_length_le lookup romaji cs₁ [] (by simp)
  · intro h20
    exact collect_stop lookup romaji cs₁ cs₂ [] (by simp) h20

/-- A dictionary stub whose every lookup succeeds with a kept result. -/
def lookupOk : String → Option DictResponse := fun _ =>
  some { definition := "ok", reading := some "r", extraReadings := some 0,
         partOfSpeech := some "noun", status := 200 }

/-- Witness for `orchestrator_quota`: 21 keepable candidates produce
exactly 20 kept results, and further candidates change nothing. -/
theorem orchestrator_quota_witness :
    (collect lookupOk (fun _ => "r") (List.replicate 21 ("a", 1)) []).length = 20 ∧
    collect lookupOk (fun _ => "r") (List.replicate 21 ("a", 1) ++ [("b", 2)]) [] =
      collect lookupOk (fun _ => "r") (List.replicate 21 ("a", 1)) [] := by
  constructor
  · decide
  · exact (orchestrator_quota lookupOk (fun _ => "r")
      (List.replicate 21 ("a", 1)) [("b", 2)]).2 (by decide)

lemma collect_skip_thrown (lookup : String → Option DictResponse)
    (romaji : String → String) :
    ∀ (cs : List (String × Nat)) (acc : List WordResult),
      collect lookup romaji cs acc =
        collect lookup romaji (cs.filter (fun p => (lookup p.1).isSome)) acc := by
  intro cs
  induction cs with
  | nil => intro acc; rfl
  | cons p rest ih =>
    intro acc
    obtain ⟨w, c⟩ := p
    cases hl : lookup w with
    | none =>
      rw [List.filter_cons]
      simp only [hl, Option.isSome_none]
      simp only [collect, hl]
      exact ih acc
    | some d =>
      rw [List.filter_cons]
      simp only [hl, Option.isSome_some]
      simp only [collect, hl, if_true]
      by_cases h20 : (if keepable d then acc ++ [mkResult romaji w c d] else acc).length = 20
      · simp only [if_pos h20]
      · simp only [if_neg h20]
        exact ih _

/-- C7: thrown lookups skip exactly their own candidate (the loop output
equals the output on the pool with throwing candidates removed, so a
throw never aborts the run); a processed candidate is kept iff its
definition is neither "Error fetching definition" nor "No definition
found"; and a kept candidate whose response has no reading field gets
the algorithmic romanization of its surface form. -/
theorem candidate_keep_spec (lookup : String → Option DictResponse)
    (romaji : String → String) (cs : List (String × Nat))
    (w : String) (c : Nat) (d : DictResponse) :
    collect lookup romaji cs [] =
      collect lookup romaji (cs.filter (fun p => (lookup p.1).isSome)) [] ∧
    (lookup w = some d →
      collect lookup romaji [(w, c)] [] =
        if d.definition ≠ "Error fetching definition" ∧
            d.definition ≠ "No definition found"
        then [mkResult romaji w c d] else []) ∧
    (d.reading = none → (mkResult romaji w c d).reading = romaji w) := by
  refine ⟨collect_skip_thrown lookup romaji cs [], ?_, ?_⟩
  · intro hl
    have hkeep : keepable d = true ↔
        (d.definition ≠ "Error fetching definition" ∧
          d.definition ≠ "No definition found") := by
      simp [keepable]
    simp only [collect, hl]
    by_cases hk : keepable d
    · have hpk := hkeep.mp hk
      rw [if_pos hk, if_pos hpk]
      simp [collect]
    · have hpk : ¬ (d.definition ≠ "Error fetching definition" ∧
          d.definition ≠ "No definition found") := fun hp => hk (hkeep.mpr hp)
      rw [if_neg hk, if_neg hpk]
      simp [collect]
  · intro hr
    simp [mkResult, hr]

/-- A concrete successful response without a reading field. -/
def godResponse : DictResponse :=
  { definition := "god", reading := none, extraReadings := some 0,
    partOfSpeech := some "noun", status := 200 }

/-- A dictionary stub for the witness: one word throws, one yields the
no-match sentinel, the rest succeed without a reading field. -/
def lookupMixed : String → Option DictResponse := fun w =>
  if w = "跳ぶ" then none
  else if w = "神" then
    some { definition := "No definition found", reading := none,
           extraReadings := none, partOfSpeech := none, status := 200 }
  else some godResponse

/-- Witness for `candidate_keep_spec` at a concrete pool and candidate. -/
theorem candidate_keep_spec_witness :
    lookupMixed "犬" = some godResponse ∧
    collect lookupMixed (fun _ => "inu") [("犬", 3)] [] =
      [mkResult (fun _ => "inu") "犬" 3 godResponse] ∧
    (mkResult (fun _ => "inu") "犬" 3 godResponse).reading = "inu" := by
  have h := candidate_keep_spec lookupMixed (fun _ => "inu") [("跳ぶ", 1)] "犬" 3
    godResponse
  refine ⟨by decide, ?_, h.2.2 rfl⟩
  have h2 := h.2.1 (by decide)
  rw [h2, if_pos (by decide)]

/-! ## Run state and rendering (`Home` component) -/

/-- The component state touched by an analysis run. -/
structure AppState where
  url : String
  results : List WordResult
  loading : Bool
  error : String
deriving DecidableEq, Repr

/-- The state updates performed at the start of a validated run:
`setLoading(true); setError(''); setResults([])`. -/
def startRun (s : AppState) : AppState :=
  { s with loading := true, error := "", results := [] }

/-- Tokenize the fetched content, rank, and run the lookup loop. -/
def pipelineResults (tokenize : String → List String)
    (lookup : String → Option DictResponse) (romaji : String → String)
    (content : String) : List WordResult :=
  collect lookup romaji (topWords (tokenize content)) []

/-- `analyzeText`: validation, the start-of-run reset, the
`/api/fetch-url` round trip (`Except.error msg` models a thrown error
with message `msg`; `Except.ok ""` a response whose `content` is empty,
which the code turns into the "No content received from URL" error),
the pipeline, the zero-results check, and `finally { setLoading(false) }`. -/
def analyzeText (s : AppState) (ready : Bool) (fetched : Except String String)
    (tokenize : String → List String) (lookup : String → Option DictResponse)
    (romaji : String → String) : AppState :=
  if s.url = "" then { s with error := "Please enter a URL" }
  else if ready = false then { s with error := "Tokenizer not ready" }
  else
    let s₁ := startRun s
    let s₂ :=
      match fetched with
      | .error msg => { s₁ with error := msg }
      | .ok content =>
          if content = "" then { s₁ with error := "No content received from URL" }
          else
            let pr := pipelineResults tokenize lookup romaji content
            if pr.length = 0 then { s₁ with error := "no_words_found" }
            else { s₁ with results := pr }
    { s₂ with loading := false }

/-- What the result area of the page shows. -/
inductive View
  | errorView (msg : String)
  | loadingView
  | resultsView (rs : List WordResult)
  | noResultsView
  | emptyView
deriving DecidableEq, Repr

/-- The JSX conditional chain of the result area: a red error box for
errors other than `no_words_found`, the spinner while loading, the card
list when results exist, the dedicated "no Japanese words were found"
message for `no_words_found`, and nothing otherwise. -/
def render (s : AppState) : View :=
  if s.error ≠ "" ∧ s.error ≠ "no_words_found" then .errorView s.error
  else if s.loading then .loadingView
  else if 0 < s.results.length then .resultsView s.results
  else if s.error = "no_words_found" then .noResultsView
  else .emptyView

/-- C8: a run that passes validation clears the previous run's results
before anything else, and its final state does not depend on the
previous results or error — so the rendered list never mixes entries
from two runs. -/
theorem run_isolation (s : AppState) (ready : Bool)
    (fetched : Except String String) (tokenize : String → List String)
    (lookup : String → Option DictResponse) (romaji : String → String)
    (hurl : ¬ s.url = "") (hready : ready = true) :
    (startRun s).results = [] ∧
    analyzeText s ready fetched tokenize lookup romaji =
      analyzeText { url := s.url, results := [], loading := s.loading, error := "" }
        ready fetched tokenize lookup romaji := by
  refine ⟨rfl, ?_⟩
  subst hready
  simp only [analyzeText, if_neg hurl]
  rfl

/-- A stale result left over from a previous run. -/
def staleResult : WordResult :=
  { word := "猫", count := 1, reading := "neko", extraReadings := 0,
    definition := "cat", partOfSpeech := "noun" }

/-- Witness for `run_isolation`: starting from a state still holding a
previous run's results, the run clears them and ends in the same state
as if none had been there. -/
theorem run_isolation_witness :
    ¬ (AppState.mk "https://x.jp" [staleResult] false "old").url = "" ∧
    (startRun (AppState.mk "https://x.jp" [staleResult] false "old")).results = [] ∧
    analyzeText (AppState.mk "https://x.jp" [staleResult] false "old") true
        (Except.ok "content") (fun _ => []) (fun _ => none) (fun _ => "") =
      analyzeText (AppState.mk "https://x.jp" [] false "") true
        (Except.ok "content") (fun _ => []) (fun _ => none) (fun _ => "") := by
  have h := run_isolation (AppState.mk "https://x.jp" [staleResult] false "old")
    true (Except.ok "content") (fun _ => []) (fun _ => none) (fun _ => "")
    (by decide) rfl
  exact ⟨by decide, h.1, h.2⟩

/-- C9: a validated run whose pool keeps zero results ends with the
dedicated `no_words_found` marker and renders the distinct no-results
message, while a failed fetch renders the error view; the two views are
different constructors of the view type. -/
theorem no_results_distinct (s : AppState) (ready : Bool)
    (fetched : Except String String) (tokenize : String → List String)
    (lookup : String → Option DictResponse) (romaji : String → String)
    (content msg : String)
    (hurl : ¬ s.url = "") (hready : ready = true) :
    (fetched = Except.ok content → ¬ content = "" →
      pipelineResults tokenize lookup romaji content = [] →
      render (analyzeText s ready fetched tokenize lookup romaji) = View.noResultsView) ∧
    (fetched = Except.error msg → ¬ msg = "" → ¬ msg = "no_words_found" →
      render (analyzeText s ready fetched tokenize lookup romaji) = View.errorView msg) ∧
    (∀ m, View.noResultsView ≠ View.errorView m) := by
  subst hready
  refine ⟨?_, ?_, by intro m h; cases h⟩
  · intro hok hne hzero
    subst hok
    simp only [analyzeText, if_neg hurl, if_neg hne, hzero]
    simp [render, startRun]
  · intro herr hne hnw
    subst herr
    simp only [analyzeText, if_neg hurl]
    simp [render, startRun, hne, hnw]

/-- Witness for `no_results_distinct`: a page whose tokens produce no
candidates renders the no-results message. -/
theorem no_results_distinct_witness :
    pipelineResults (fun _ => []) (fun _ => none) (fun _ => "") "text" = [] ∧
    render (analyzeText (AppState.mk "https://x.jp" [] false "") true
        (Except.ok "text") (fun _ => []) (fun _ => none) (fun _ => "")) =
      View.noResultsView := by
  have h := (no_results_distinct (AppState.mk "https://x.jp" [] false "") true
    (Except.ok "text") (fun _ => []) (fun _ => none) (fun _ => "") "text" "m"
    (by decide) rfl).1 rfl (by decide) (by decide)
  exact ⟨by decide, h⟩

/-! ## CSV export (`exportToAnki` in `page.tsx`) -/

/-- One exported row: `` `${word};${reading};${partOfSpeech};${definition}` ``. -/
def csvRow (r : WordResult) : String :=
  r.word ++ ";" ++ r.reading ++ ";" ++ r.partOfSpeech ++ ";" ++ r.definition

/-- The exported file: the header row, a newline, and the rows joined
with newlines (`csvWithHeader` in `exportToAnki`). -/
def csvExport (rs : List WordResult) : String :=
  "Front;Back;Part of Speech;Definition" ++ "\n" ++ jsJoin "\n" (rs.map csvRow)

/-- Modelled from the spec: the repository ships no importer, so the
round-trip property reads the stated format back — split the file into
lines, drop the header row, and split each line on ";". -/
def csvParse (s : String) : List (List String) :=
  ((s.data.splitOn '\n').drop 1).map (fun line => (line.splitOn ';').map String.mk)

/-- A field that contains neither separator of the CSV format. -/
def sepFree (s : String) : Bool :=
  decide (';' ∉ s.data) && decide ('\n' ∉ s.data)

lemma sepFree_iff (s : String) :
    sepFree s = true ↔ ';' ∉ s.data ∧ '\n' ∉ s.data := by
  simp [sepFree]

lemma jsJoin_data (sep : String) (ls : List String) :
    (jsJoin sep ls).data = List.intercalate sep.data (ls.map String.data) := by
  induction ls with
  | nil => simp [jsJoin, List.intercalate]
  | cons x xs ih =>
    cases xs with
    | nil => simp [jsJoin, List.intercalate]
    | cons y ys =>
      have hstep : jsJoin sep (x :: y :: ys) = x ++ sep ++ jsJoin sep (y :: ys) := rfl
      rw [hstep, String.data_append, String.data_append, ih]
      simp [List.intercalate, List.intersperse_cons_cons]

lemma csvRow_data (r : WordResult) :
    (csvRow r).data = List.intercalate [';']
      [r.word.data, r.reading.data, r.partOfSpeech.data, r.definition.data] := by
  have hsemi : (";" : String).data = [';'] := rfl
  simp [csvRow, String.data_append, hsemi, List.intercalate,
    List.intersperse_cons_cons]

lemma mem_intercalate4 (ch : Char) (a b c d : List Char) :
    ch ∈ List.intercalate [';'] [a, b, c, d] ↔
      ch ∈ a ∨ ch ∈ b ∨ ch ∈ c ∨ ch ∈ d ∨ ch = ';' := by
  simp [List.intercalate, List.intersperse_cons_cons]
  tauto

/-- C3 counterexample: the export writes definitions verbatim, and a
definition produced by joining two glosses contains "; ", so parsing the
exported row splits it apart and the round trip fails. -/
theorem csv_round_trip_cex :
    ¬ (csvParse (csvExport [⟨"猫", 2, "ねこ", 0, "cat; kitty", "noun"⟩]) =
        [["猫", "ねこ", "noun", "cat; kitty"]]) := by
  decide

/-- C3 (amended): for every nonempty rendered word list all of whose
surface, reading, part-of-speech and definition fields contain neither
";" nor a newline, parsing the exported CSV recovers exactly those four
fields per word, in rendered order.  (When a field contains ";" — which
every multi-gloss definition does — the round trip fails.) -/
theorem csv_round_trip (rs : List WordResult) (hne : rs ≠ [])
    (hclean : ∀ r ∈ rs, sepFree r.word = true ∧ sepFree r.reading = true ∧
      sepFree r.partOfSpeech = true ∧ sepFree r.definition = true) :
    csvParse (csvExport rs) =
      rs.map (fun r => [r.word, r.reading, r.partOfSpeech, r.definition]) := by
  have hexp : (csvExport rs).data =
      ("Front;Back;Part of Speech;Definition" : String).data ++
        '\n' :: List.intercalate ['\n'] ((rs.map csvRow).map String.data) := by
    have hnl : ("\n" : String).data = ['\n'] := rfl
    simp [csvExport, String.data_append, hnl, jsJoin_data]
  have hclean4 : ∀ r ∈ rs, ';' ∉ r.word.data ∧ '\n' ∉ r.word.data ∧
      ';' ∉ r.reading.data ∧ '\n' ∉ r.reading.data ∧
      ';' ∉ r.partOfSpeech.data ∧ '\n' ∉ r.partOfSpeech.data ∧
      ';' ∉ r.definition.data ∧ '\n' ∉ r.definition.data := by
    intro r hr
    obtain ⟨h1, h2, h3, h4⟩ := hclean r hr
    obtain ⟨a1, a2⟩ := (sepFree_iff _).mp h1
    obtain ⟨b1, b2⟩ := (sepFree_iff _).mp h2
    obtain ⟨c1, c2⟩ := (sepFree_iff _).mp h3
    obtain ⟨d1, d2⟩ := (sepFree_iff _).mp h4
    exact ⟨a1, a2, b1, b2, c1, c2, d1, d2⟩
  have hrow_nl : ∀ l ∈ (rs.map csvRow).map String.data, '\n' ∉ l := by
    intro l hl
    rw [List.map_map, List.mem_map] at hl
    obtain ⟨r, hr, rfl⟩ := hl
    show '\n' ∉ (csvRow r).data
    rw [csvRow_data, mem_intercalate4]
    obtain ⟨_, a2, _, b2, _, c2, _, d2⟩ := hclean4 r hr
    intro hmem
    rcases hmem with h | h | h | h | h
    · exact a2 h
    · exact b2 h
    · exact c2 h
    · exact d2 h
    · cases h
  have hsplit1 : List.splitOn '\n' ((csvExport rs).data) =
      ("Front;Back;Part of Speech;Definition" : String).data ::
        List.splitOn '\n' (List.intercalate ['\n'] ((rs.map csvRow).map String.data)) := by
    rw [hexp]
    show List.splitOnP _ _ = _
    exact List.splitOnP_first _ _ (by decide) '\n' (by decide) _
  have hne' : (rs.map csvRow).map String.data ≠ [] := by
    simp [hne]
  have hsplit2 : List.splitOn '\n'
      (List.intercalate ['\n'] ((rs.map csvRow).map String.data)) =
      (rs.map csvRow).map String.data :=
    List.splitOn_intercalate _ '\n' hrow_nl hne'
  unfold csvParse
  rw [hsplit1, hsplit2, List.drop_one, List.tail_cons, List.map_map, List.map_map]
  refine List.map_congr_left ?_
  intro r hr
  show ((csvRow r).data.splitOn ';').map String.mk = _
  rw [csvRow_data]
  obtain ⟨a1, _, b1, _, c1, _, d1, _⟩ := hclean4 r hr
  have hfields : List.splitOn ';'
      (List.intercalate [';']
        [r.word.data, r.reading.data, r.partOfSpeech.data, r.definition.data]) =
      [r.word.data, r.reading.data, r.partOfSpeech.data, r.definition.data] := by
    refine List.splitOn_intercalate _ ';' ?_ (by simp)
    intro l hl
    simp only [List.mem_cons, List.not_mem_nil, or_false] at hl
    rcases hl with rfl | rfl | rfl | rfl
    · exact a1
    · exact b1
    · exact c1
    · exact d1
  rw [hfields]
  rfl

/-- A clean row for the round-trip witness. -/
def rowA : WordResult :=
  ⟨"日本語", 2, "にほんご", 1, "Japanese language", "noun"⟩

/-- A second clean row for the round-trip witness. -/
def rowB : WordResult :=
  ⟨"天気", 2, "てんき", 0, "weather", "noun"⟩

/-- Witness for `csv_round_trip` on a concrete two-row list. -/
theorem csv_round_trip_witness :
    ([rowA, rowB] : List WordResult) ≠ [] ∧
    csvParse (csvExport [rowA, rowB]) =
      [[rowA.word, rowA.reading, rowA.partOfSpeech, rowA.definition],
        [rowB.word, rowB.reading, rowB.partOfSpeech, rowB.definition]] := by
  have h := csv_round_trip [rowA, rowB] (by decide) (by decide)
  exact ⟨by decide, h⟩

end Luminos
